import Mathlib

/-!
Verification of the Polymarket price-normalization and arbitrage engine.

The development shallowly embeds the two algorithmic modules of the
repository:

* `main.py`, class `MarketPriceInfo`: conversion of raw order-book
  snapshots into per-outcome probability estimates (binary and
  multi-outcome paths), keeping the source's fail-soft fallbacks.
* `src/analysis/arbitrage_detector.py`, class `ArbitrageDetector`:
  the three pairwise relationship checks, the profit/cost model, and the
  ranking pass of `find_arbitrage_opportunities`.

Numbers are modelled as `ℚ` (the source uses `Decimal` in the detector
and floating point in the pricer; all quantities involved are finite
decimals, so exact rational arithmetic is the intended semantics).
Network fetches are modelled by an `Option`-valued order-book argument
(`none` = transport/JSON failure), and Python exceptions inside a `try`
block by `Option`/`Except` results of the embedded try-bodies.
Python `dict`s keyed by strings are modelled as association lists with
update-in-place-or-append insertion, which preserves Python's insertion
order semantics.
-/

/-! ### Price-string parsing (`MarketPriceInfo.get_probability_from_price`) -/

/-- Value of a list of decimal digit characters, most significant first. -/
def digitsToNat (cs : List Char) : ℕ :=
  cs.foldl (fun n c => 10 * n + (c.toNat - 48)) 0

/-- Parsing of a plain decimal literal (optional sign, digits, optional
fractional part), the fragment of Python `Decimal(str)` syntax exercised by
order-book price strings. Anything else fails with `none`. -/
def parseDecimal (s : String) : Option ℚ :=
  let core : List Char → Option ℚ := fun rest =>
    let intPart := rest.takeWhile (fun c => c ≠ '.')
    match rest.dropWhile (fun c => c ≠ '.') with
    | [] =>
      if intPart.isEmpty || !(intPart.all Char.isDigit) then none
      else some (digitsToNat intPart)
    | _ :: fracPart =>
      if fracPart.contains '.' then none
      else if !(intPart.all Char.isDigit) || !(fracPart.all Char.isDigit) then none
      else if intPart.isEmpty && fracPart.isEmpty then none
      else some ((digitsToNat intPart : ℚ) + (digitsToNat fracPart : ℚ) / (10 ^ fracPart.length))
  match s.data with
  | '-' :: rest => (core rest).map (fun q => -q)
  | '+' :: rest => core rest
  | rest => core rest

/-- `MarketPriceInfo.get_probability_from_price`: `float(Decimal(price))`
with every parse failure silently mapped to `0.0`. -/
def get_probability_from_price (price : String) : ℚ :=
  (parseDecimal price).getD 0

/-! ### Order-book and market data model -/

/-- One JSON price level `{'price': ...}`; the `price` key may be absent. -/
structure PriceLevel where
  price : Option String
deriving Repr

/-- A fetched order book: a JSON object mapping keys such as `bids`,
`asks`, `bids_<outcome_id>`, `asks_<outcome_id>` to lists of price
levels; absent keys give `none`. -/
structure OrderBook where
  entries : String → Option (List PriceLevel)

/-- One outcome record `{id, name}` of a market, as supplied by the feed. -/
structure Outcome where
  id : String
  name : String
deriving Repr, DecidableEq

/-- The per-outcome estimate dict produced by the pricer.
`normalized_probability` is `none` while the corresponding Python dict
key is absent (the multi-outcome path only adds it when the raw
probability sum is positive). -/
structure OutcomePriceEstimate where
  probability : ℚ
  normalized_probability : Option ℚ
  best_bid : ℚ
  best_ask : ℚ
  bid_ask_spread : ℚ
deriving Repr, DecidableEq

/-- The `price_data` dict returned for one market. `outcome_prices` is an
association list keyed by outcome name, in Python dict insertion order. -/
structure PriceData where
  outcome_prices : List (String × OutcomePriceEstimate)
  total_implied_probability : ℚ
  market_efficiency : ℚ
  average_spread : ℚ

/-- Python dict assignment `d[k] = v`: replace the value of an existing
key in place, otherwise append the new binding at the end. -/
def dictInsert {α : Type} (k : String) (v : α) : List (String × α) → List (String × α)
  | [] => [(k, v)]
  | (k', v') :: rest => if k' = k then (k, v) :: rest else (k', v') :: dictInsert k v rest

/-- Python dict read `d[k]`: the value of the first binding of `k`. -/
def dictLookup {α : Type} (k : String) : List (String × α) → Option α
  | [] => none
  | (k', v) :: rest => if k = k' then some v else dictLookup k rest

/-- Probability recorded for key `k`, `0` when the key is absent. -/
def probOf (pd : PriceData) (k : String) : ℚ :=
  ((dictLookup k pd.outcome_prices).map (fun e => e.probability)).getD 0

/-- Spread recorded for key `k`, `0` when the key is absent. -/
def spreadOf (pd : PriceData) (k : String) : ℚ :=
  ((dictLookup k pd.outcome_prices).map (fun e => e.bid_ask_spread)).getD 0

/-! ### Multi-outcome pricing path (`get_multi_outcome_prices`) -/

/-- Body of the per-outcome loop: read the `bids_<id>`/`asks_<id>` lists
(defaulting to `[{'price': '0'}]` / `[{'price': '1'}]` when the key is
absent), take the top level's price string, parse, and build the estimate.
`none` models the exceptions the loop can raise inside the enclosing
`try` (`IndexError` on an empty list present under the key, `KeyError`
when the top level lacks `'price'`). -/
def outcomeEstimate (book : OrderBook) (o : Outcome) : Option OutcomePriceEstimate :=
  let bids := (book.entries ("bids_" ++ o.id)).getD [⟨some "0"⟩]
  let asks := (book.entries ("asks_" ++ o.id)).getD [⟨some "1"⟩]
  match bids, asks with
  | b :: _, a :: _ =>
    match b.price, a.price with
    | some bp, some ap =>
      let best_bid := get_probability_from_price bp
      let best_ask := get_probability_from_price ap
      some { probability := (best_bid + best_ask) / 2
             normalized_probability := none
             best_bid := best_bid
             best_ask := best_ask
             bid_ask_spread := best_ask - best_bid }
    | _, _ => none
  | _, _ => none

/-- The accumulation loop of `get_multi_outcome_prices`: left-to-right over
the outcomes, building the `outcome_prices` dict and summing the mid
prices into `total_implied_probability`; `none` propagates any exception
to the enclosing `try`. -/
def processStep (book : OrderBook)
    (acc : Option (List (String × OutcomePriceEstimate) × ℚ)) (o : Outcome) :
    Option (List (String × OutcomePriceEstimate) × ℚ) :=
  match acc with
  | none => none
  | some (prices, total) =>
    match outcomeEstimate book o with
    | none => none
    | some e => some (dictInsert o.name e prices, total + e.probability)

def processOutcomes (book : OrderBook) (outcomes : List Outcome) :
    Option (List (String × OutcomePriceEstimate) × ℚ) :=
  outcomes.foldl (processStep book) (some ([], 0))

/-- Worst-case estimate used by every `except` fallback of the pricer. -/
def defaultEstimate : OutcomePriceEstimate :=
  { probability := 0, normalized_probability := some 0,
    best_bid := 0, best_ask := 1, bid_ask_spread := 1 }

/-- The `except` branch of `get_multi_outcome_prices`: one conservative
default estimate per outcome name, `total_implied_probability = 0`,
`market_efficiency = 1`, `average_spread = 1`. -/
def multiFallback (outcomes : List Outcome) : PriceData :=
  { outcome_prices := outcomes.foldl (fun acc o => dictInsert o.name defaultEstimate acc) []
    total_implied_probability := 0
    market_efficiency := 1
    average_spread := 1 }

/-- The normalization assignment of the multi-outcome path:
`outcome_prices[name]['normalized_probability'] = probability / total`. -/
def normalizeEstimate (total : ℚ) (e : OutcomePriceEstimate) : OutcomePriceEstimate :=
  { e with normalized_probability := some (e.probability / total) }

/-- The `try` body of `MarketPriceInfo.get_multi_outcome_prices` after a
successful fetch; any exception (including the `ZeroDivisionError` of
`average_spread` when `outcomes` is empty) lands in the fallback. When
the raw probability sum is positive, every entry of the dict is given
its `normalized_probability`. -/
def multiBody (book : OrderBook) (outcomes : List Outcome) : PriceData :=
  match processOutcomes book outcomes with
  | none => multiFallback outcomes
  | some (prices, total) =>
    if outcomes.isEmpty then multiFallback outcomes
    else
      let prices' :=
        if 0 < total then prices.map (fun ke => (ke.1, normalizeEstimate total ke.2))
        else prices
      { outcome_prices := prices'
        total_implied_probability := total
        market_efficiency := |1 - total|
        average_spread := (prices'.map (fun ke => ke.2.bid_ask_spread)).sum / (outcomes.length : ℚ) }

/-- `MarketPriceInfo.get_multi_outcome_prices`. `fetch = none` models a
failed network fetch / `raise_for_status` / JSON decode. -/
def get_multi_outcome_prices (fetch : Option OrderBook) (outcomes : List Outcome) : PriceData :=
  match fetch with
  | none => multiFallback outcomes
  | some book => multiBody book outcomes

/-! ### Binary pricing path (`get_binary_market_prices`) -/

/-- The `except` branch of `get_binary_market_prices`. -/
def binaryFallback : PriceData :=
  { outcome_prices := [("Yes", defaultEstimate), ("No", defaultEstimate)]
    total_implied_probability := 0
    market_efficiency := 1
    average_spread := 1 }

/-- `MarketPriceInfo.get_binary_market_prices`. The top-of-book reads use
`data.get('bids', [{}])[0].get('price', '0')` (resp. `'1'` for asks): a
missing side key defaults to a one-element list whose level has no price,
so the price strings default to `'0'`/`'1'`; a side key present with an
empty list raises `IndexError` into the fallback. The `No` outcome is the
exact complement of `Yes`, and `total_implied_probability = 1`,
`market_efficiency = 0` are hard-coded. -/
def binaryBody (book : OrderBook) : PriceData :=
  match (book.entries "bids").getD [⟨none⟩], (book.entries "asks").getD [⟨none⟩] with
    | b :: _, a :: _ =>
      let yes_best_bid := get_probability_from_price (b.price.getD "0")
      let yes_best_ask := get_probability_from_price (a.price.getD "1")
      let yes_mid := (yes_best_bid + yes_best_ask) / 2
      { outcome_prices :=
          [("Yes",
            { probability := yes_mid
              normalized_probability := some yes_mid
              best_bid := yes_best_bid
              best_ask := yes_best_ask
              bid_ask_spread := yes_best_ask - yes_best_bid }),
           ("No",
            { probability := 1 - yes_mid
              normalized_probability := some (1 - yes_mid)
              best_bid := 1 - yes_best_ask
              best_ask := 1 - yes_best_bid
              bid_ask_spread := yes_best_ask - yes_best_bid })]
        total_implied_probability := 1
        market_efficiency := 0
        average_spread := yes_best_ask - yes_best_bid }
    | _, _ => binaryFallback

def get_binary_market_prices (fetch : Option OrderBook) : PriceData :=
  match fetch with
  | none => binaryFallback
  | some book => binaryBody book

/-! ### Path selection (`get_market_prices`) -/

/-- Python `str.lower()` restricted to per-character lowering (the only
use here is on outcome names compared against `'yes'`/`'no'`). -/
def pyLower (s : String) : String := ⟨s.data.map Char.toLower⟩

/-- The branch condition of `get_market_prices`:
`len(outcomes) == 2 and any(o['name'].lower() in ['yes', 'no'] for o in outcomes)`. -/
def isBinaryMarket (outcomes : List Outcome) : Bool :=
  outcomes.length == 2 &&
    outcomes.any (fun o => pyLower o.name == "yes" || pyLower o.name == "no")

/-- `MarketPriceInfo.get_market_prices`: dispatch to the binary or the
multi-outcome path. -/
def get_market_prices (fetch : Option OrderBook) (outcomes : List Outcome) : PriceData :=
  if isBinaryMarket outcomes then get_binary_market_prices fetch
  else get_multi_outcome_prices fetch outcomes

/-! ### Arbitrage detector (`src/analysis/arbitrage_detector.py`) -/

/-- Modelled from the spec: the `Market` record of `src.data.models`, a
module the detector imports but which is absent from the repository.
Spec §3 gives `{id, question, description, outcomes, end_date, tags}`
plus a price map keyed by name; the detector reads only `question` and
`prices[...]`. A price entry is `some q` when the key is present and
`Decimal(str(value))` parses to `q`, and `none` when the key is missing
or the value unparseable (either raises inside the check's `try`). -/
structure Market where
  question : String
  prices : String → Option ℚ

/-- One entry of `action_steps`. -/
structure ActionStep where
  market : String
  action : String
  side : String
  price : ℚ

/-- The `ArbitrageOpportunity` dataclass. -/
structure ArbitrageOpportunity where
  markets : List Market
  profit_potential : ℚ
  risk_level : String
  required_capital : ℚ
  action_steps : List ActionStep
  transaction_costs : ℚ
  net_profit : ℚ

/-- `ArbitrageDetector.min_profit_threshold` (`Decimal('0.02')`). -/
def min_profit_threshold : ℚ := 2 / 100

/-- `ArbitrageDetector.transaction_fee` (`Decimal('0.02')`). -/
def transaction_fee : ℚ := 2 / 100

/-- Outcome of one relationship check. The detector's `except` handlers
call `logger.error(...)`, but `logger` is never defined or imported in
`arbitrage_detector.py`, so a caught exception (missing `'YES'`/`'NO'`
key, unparseable price) re-raises as `NameError` out of the check;
`Except.error ()` models that raise. -/
abbrev CheckResult := Except Unit (Option ArbitrageOpportunity)

/-- `ArbitrageDetector.check_complementary_markets`. Reads all four
`YES`/`NO` prices first (any failure raises, see `CheckResult`), then
tests the YES-side trigger and, if it yields nothing, the NO-side one. -/
def check_complementary_markets (market1 market2 : Market) : CheckResult :=
  match market1.prices "YES", market1.prices "NO",
        market2.prices "YES", market2.prices "NO" with
  | some market1_yes, some market1_no, some market2_yes, some market2_no =>
    let capital_required : ℚ := 1 * 100
    let transaction_costs := capital_required * transaction_fee * 2
    let yesOpp : Option ArbitrageOpportunity :=
      if market1_yes + market2_yes < 1 then
        let potential_profit := (1 - (market1_yes + market2_yes)) * capital_required - transaction_costs
        if min_profit_threshold * capital_required < potential_profit then
          some { markets := [market1, market2]
                 profit_potential := potential_profit
                 risk_level := "LOW"
                 required_capital := capital_required
                 action_steps :=
                   [⟨market1.question, "BUY", "YES", market1_yes⟩,
                    ⟨market2.question, "BUY", "YES", market2_yes⟩]
                 transaction_costs := transaction_costs
                 net_profit := potential_profit }
        else none
      else none
    match yesOpp with
    | some o => .ok (some o)
    | none =>
      if market1_no + market2_no < 1 then
        let potential_profit := (1 - (market1_no + market2_no)) * capital_required - transaction_costs
        if min_profit_threshold * capital_required < potential_profit then
          .ok (some { markets := [market1, market2]
                      profit_potential := potential_profit
                      risk_level := "LOW"
                      required_capital := capital_required
                      action_steps :=
                        [⟨market1.question, "BUY", "NO", market1_no⟩,
                         ⟨market2.question, "BUY", "NO", market2_no⟩]
                      transaction_costs := transaction_costs
                      net_profit := potential_profit })
        else .ok none
      else .ok none
  | _, _, _, _ => .error ()

/-- `ArbitrageDetector.check_nested_markets`. -/
def check_nested_markets (subset_market superset_market : Market) : CheckResult :=
  match subset_market.prices "YES", superset_market.prices "YES" with
  | some subset_yes, some superset_yes =>
    if superset_yes < subset_yes then
      let capital_required : ℚ := 1 * 100
      let transaction_costs := capital_required * transaction_fee * 2
      let potential_profit := (subset_yes - superset_yes) * capital_required - transaction_costs
      if min_profit_threshold * capital_required < potential_profit then
        .ok (some { markets := [subset_market, superset_market]
                    profit_potential := potential_profit
                    risk_level := "MEDIUM"
                    required_capital := capital_required
                    action_steps :=
                      [⟨subset_market.question, "SELL", "YES", subset_yes⟩,
                       ⟨superset_market.question, "BUY", "YES", superset_yes⟩]
                    transaction_costs := transaction_costs
                    net_profit := potential_profit })
      else .ok none
    else .ok none
  | _, _ => .error ()

/-- `ArbitrageDetector.check_temporal_markets`. -/
def check_temporal_markets (earlier_market later_market : Market) : CheckResult :=
  match earlier_market.prices "YES", later_market.prices "YES" with
  | some earlier_yes, some later_yes =>
    if later_yes < earlier_yes then
      let capital_required : ℚ := 1 * 100
      let transaction_costs := capital_required * transaction_fee * 2
      let potential_profit := (earlier_yes - later_yes) * capital_required - transaction_costs
      if min_profit_threshold * capital_required < potential_profit then
        .ok (some { markets := [earlier_market, later_market]
                    profit_potential := potential_profit
                    risk_level := "MEDIUM"
                    required_capital := capital_required
                    action_steps :=
                      [⟨earlier_market.question, "SELL", "YES", earlier_yes⟩,
                       ⟨later_market.question, "BUY", "YES", later_yes⟩]
                    transaction_costs := transaction_costs
                    net_profit := potential_profit })
      else .ok none
    else .ok none
  | _, _ => .error ()

/-- `ArbitrageDetector._are_complementary`: the body is `pass`, so the
call returns Python `None`. -/
def _are_complementary (_market1 _market2 : Market) : Option Bool := none

/-- `ArbitrageDetector._is_nested`: the body is `pass`. -/
def _is_nested (_market1 _market2 : Market) : Option Bool := none

/-- `ArbitrageDetector._are_temporal`: the body is `pass`. -/
def _are_temporal (_market1 _market2 : Market) : Option Bool := none

/-- Python truthiness of an optional boolean (`None` is falsy). -/
def truthy : Option Bool → Bool
  | none => false
  | some b => b

/-- One guarded check of the inner loop: run the check only when the
relationship predicate is truthy, append a returned opportunity. -/
def guardedCheck (g : Option Bool) (c : CheckResult)
    (acc : List ArbitrageOpportunity) : Except Unit (List ArbitrageOpportunity) :=
  if truthy g then
    match c with
    | .error e => .error e
    | .ok (some o) => .ok (acc ++ [o])
    | .ok none => .ok acc
  else .ok acc

/-- The three guarded checks run for one pair `(market1, market2)`. -/
def pairChecks (market1 market2 : Market)
    (acc : List ArbitrageOpportunity) : Except Unit (List ArbitrageOpportunity) := do
  let acc ← guardedCheck (_are_complementary market1 market2)
    (check_complementary_markets market1 market2) acc
  let acc ← guardedCheck (_is_nested market1 market2)
    (check_nested_markets market1 market2) acc
  guardedCheck (_are_temporal market1 market2)
    (check_temporal_markets market1 market2) acc

/-- The upper-triangular pair enumeration
`for i, market1 in enumerate(markets): for market2 in markets[i+1:]`. -/
def upperPairs {α : Type} : List α → List (α × α)
  | [] => []
  | x :: xs => xs.map (fun y => (x, y)) ++ upperPairs xs

/-- The collection loop of `find_arbitrage_opportunities`, before ranking. -/
def collectOpportunities (markets : List Market) : Except Unit (List ArbitrageOpportunity) :=
  (upperPairs markets).foldlM (fun acc p => pairChecks p.1 p.2 acc) []

/-- The ranking pass: `sorted(opportunities, key=lambda x:
x.profit_potential, reverse=True)`. Python's sort is stable; a stable
descending sort places an element before exactly those later elements
whose key is not larger, which is insertion sort under
`b.profit_potential ≤ a.profit_potential`. -/
def rank (opportunities : List ArbitrageOpportunity) : List ArbitrageOpportunity :=
  opportunities.insertionSort (fun a b => b.profit_potential ≤ a.profit_potential)

/-- `ArbitrageDetector.find_arbitrage_opportunities`: collect over all
upper-triangular pairs, then rank. An exception escaping a guarded check
would propagate out of the whole run (`Except.error`). -/
def find_arbitrage_opportunities (markets : List Market) :
    Except Unit (List ArbitrageOpportunity) :=
  (collectOpportunities markets).map rank


/-! ### Dictionary lemmas (proof infrastructure) -/

theorem dictLookup_dictInsert {α : Type} (n k : String) (w : α) (l : List (String × α)) :
    dictLookup k (dictInsert n w l) = if k = n then some w else dictLookup k l := by
  induction l with
  | nil => simp only [dictInsert, dictLookup]
  | cons kv rest ih =>
    obtain ⟨k', v'⟩ := kv
    have e2 : dictLookup k ((k', v') :: rest) =
        if k = k' then some v' else dictLookup k rest := rfl
    by_cases hk : k' = n
    · subst hk
      have e3 : dictInsert k' w ((k', v') :: rest) = (k', w) :: rest := by
        simp [dictInsert]
      have e4 : dictLookup k ((k', w) :: rest) =
          if k = k' then some w else dictLookup k rest := rfl
      rw [e3, e4, e2]
      split_ifs <;> simp_all
    · have e3 : dictInsert n w ((k', v') :: rest) = (k', v') :: dictInsert n w rest := by
        simp [dictInsert, hk]
      have e1 : dictLookup k ((k', v') :: dictInsert n w rest) =
          if k = k' then some v' else dictLookup k (dictInsert n w rest) := rfl
      rw [e3, e1, ih, e2]
      split_ifs <;> simp_all

theorem mem_dictInsert {α : Type} (n k : String) (w v : α) :
    ∀ l : List (String × α), (k, v) ∈ dictInsert n w l → (k, v) = (n, w) ∨ (k, v) ∈ l
  | [] => by simp [dictInsert]
  | (k', v') :: rest => by
    by_cases hk : k' = n <;>
      simp only [dictInsert, hk, if_true, if_false, List.mem_cons] <;> intro h
    · rcases h with h | h
      · exact Or.inl h
      · exact Or.inr (Or.inr h)
    · rcases h with h | h
      · exact Or.inr (Or.inl h)
      · rcases mem_dictInsert n k w v rest h with h' | h'
        · exact Or.inl h'
        · exact Or.inr (Or.inr h')

theorem foldl_dictInsert_mem {α β : Type} (key : β → String) (val : β → α) :
    ∀ (xs : List β) (acc : List (String × α)) (kv : String × α),
      kv ∈ xs.foldl (fun acc x => dictInsert (key x) (val x) acc) acc →
      (∃ x ∈ xs, kv = (key x, val x)) ∨ kv ∈ acc
  | [], _, _, h => Or.inr h
  | x :: xs, acc, kv, h => by
    rcases foldl_dictInsert_mem key val xs (dictInsert (key x) (val x) acc) kv h with
      ⟨x', hx', rfl⟩ | h'
    · exact Or.inl ⟨x', List.mem_cons_of_mem _ hx', rfl⟩
    · rcases mem_dictInsert (key x) kv.1 (val x) kv.2 acc (by simpa using h') with h'' | h''
      · exact Or.inl ⟨x, List.mem_cons_self _ _, by simpa using h''⟩
      · exact Or.inr h''

theorem foldl_dictInsert_lookup_isSome {α β : Type} (key : β → String) (val : β → α)
    (k : String) :
    ∀ (xs : List β) (acc : List (String × α)),
      (dictLookup k (xs.foldl (fun acc x => dictInsert (key x) (val x) acc) acc)).isSome =
        true ↔ (∃ x ∈ xs, key x = k) ∨ (dictLookup k acc).isSome = true
  | [], acc => by simp
  | x :: xs, acc => by
    rw [List.foldl_cons, foldl_dictInsert_lookup_isSome key val k xs, dictLookup_dictInsert]
    simp only [List.mem_cons, exists_eq_or_imp]
    by_cases h : k = key x
    · simp [h]
    · have h' : ¬ key x = k := fun hh => h hh.symm
      simp [h, h']

theorem foldl_dictInsert_const_lookup {α β : Type} (key : β → String) (v : α) (k : String) :
    ∀ (xs : List β) (acc : List (String × α)),
      dictLookup k (xs.foldl (fun acc x => dictInsert (key x) v acc) acc) =
        if ∃ x ∈ xs, key x = k then some v else dictLookup k acc
  | [], acc => by simp
  | x :: xs, acc => by
    rw [List.foldl_cons, foldl_dictInsert_const_lookup key v k xs, dictLookup_dictInsert]
    simp only [List.mem_cons, exists_eq_or_imp]
    by_cases hx : k = key x
    · by_cases hxs : ∃ x ∈ xs, key x = k <;> simp [hx, hxs]
    · have hx' : ¬ key x = k := fun hh => hx hh.symm
      by_cases hxs : ∃ x ∈ xs, key x = k <;> simp [hx, hx', hxs]

theorem dictLookup_mapVals {α : Type} (g : α → α) (k : String) :
    ∀ l : List (String × α),
      dictLookup k (l.map (fun ke => (ke.1, g ke.2))) = (dictLookup k l).map g
  | [] => by simp [dictLookup]
  | (k', v') :: rest => by
    by_cases h : k = k' <;> simp [dictLookup, h, dictLookup_mapVals g k rest]

theorem dictLookup_mem {α : Type} (k : String) :
    ∀ l : List (String × α), ∀ e, dictLookup k l = some e → (k, e) ∈ l
  | [], e => by intro h; exact Option.noConfusion h
  | (k', v') :: rest, e => by
    intro hl
    rw [show dictLookup k ((k', v') :: rest) =
          if k = k' then some v' else dictLookup k rest from rfl] at hl
    by_cases h : k = k'
    · rw [if_pos h] at hl
      subst h
      simp [← Option.some_inj.mp hl]
    · rw [if_neg h] at hl
      exact List.mem_cons_of_mem _ (dictLookup_mem k rest e hl)

theorem dictInsert_of_lookup_none {α : Type} (k : String) (v : α) :
    ∀ l : List (String × α), dictLookup k l = none → dictInsert k v l = l ++ [(k, v)]
  | [], _ => rfl
  | (k', v') :: rest, h => by
    rw [show dictLookup k ((k', v') :: rest) =
          if k = k' then some v' else dictLookup k rest from rfl] at h
    by_cases hk : k = k'
    · rw [if_pos hk] at h
      exact Option.noConfusion h
    · rw [if_neg hk] at h
      have hk' : ¬ k' = k := fun hh => hk hh.symm
      simp [dictInsert, hk', dictInsert_of_lookup_none k v rest h]

theorem dictLookup_append {α : Type} (k : String) (l₁ l₂ : List (String × α)) :
    dictLookup k (l₁ ++ l₂) =
      match dictLookup k l₁ with
      | some v => some v
      | none => dictLookup k l₂ := by
  induction l₁ with
  | nil => simp [dictLookup]
  | cons kv rest ih =>
    obtain ⟨k', v'⟩ := kv
    by_cases h : k = k' <;> simp [dictLookup, h, ih]

/-! ### Detector theorems -/

theorem pairChecks_stub (m1 m2 : Market) (acc : List ArbitrageOpportunity) :
    pairChecks m1 m2 acc = .ok acc := rfl

theorem foldlM_pairChecks :
    ∀ (ps : List (Market × Market)) (acc : List ArbitrageOpportunity),
      ps.foldlM (fun acc p => pairChecks p.1 p.2 acc) acc = .ok acc
  | [], acc => rfl
  | p :: ps, acc => by
    rw [List.foldlM_cons, pairChecks_stub]
    exact foldlM_pairChecks ps acc

/-- Claim C10: because the relationship predicates are `pass` stubs that
return Python `None` (falsy), `find_arbitrage_opportunities` never invokes
a relationship check and returns the empty list — without raising — for
every input list of markets. -/
theorem find_arbitrage_opportunities_empty (markets : List Market) :
    find_arbitrage_opportunities markets = .ok [] := by
  unfold find_arbitrage_opportunities collectOpportunities
  rw [foldlM_pairChecks]
  rfl

/-- Market whose prices dict lacks every key, in particular `'YES'`. -/
def noPriceMarket : Market := { question := "q", prices := fun _ => none }

/-- Claim C1: refuted as stated — a missing-price failure inside a single
relationship check is NOT resolved by returning `None`. The `except`
handler calls `logger.error(...)`, but `logger` is undefined in
`arbitrage_detector.py`, so each check re-raises (`NameError`) on a
market whose prices lack the `'YES'` key instead of returning `None`. -/
theorem relationship_check_raises_on_missing_price :
    check_complementary_markets noPriceMarket noPriceMarket = .error () ∧
    check_nested_markets noPriceMarket noPriceMarket = .error () ∧
    check_temporal_markets noPriceMarket noPriceMarket = .error () :=
  ⟨rfl, rfl, rfl⟩

/-- Claim C5: for every relationship check whose trigger condition holds,
`required_capital = 100`, `transaction_costs = 100 × 0.02 × 2 = 4`,
`net_profit = gross_edge × 100 − 4`, and an Opportunity is returned iff
`net_profit > 0.02 × 100 = 2`; when no trigger clears the threshold the
check returns `None` (`.ok none`) rather than raising. Stated for all
three checks, with all read price keys present (a missing key raises
instead, see claim C1). -/
theorem check_profit_model :
    min_profit_threshold * (100:ℚ) = 2 ∧ (100:ℚ) * transaction_fee * 2 = 4 ∧
    (∀ (m1 m2 : Market) (y1 n1 y2 n2 : ℚ),
      m1.prices "YES" = some y1 → m1.prices "NO" = some n1 →
      m2.prices "YES" = some y2 → m2.prices "NO" = some n2 →
      ((y1 + y2 < 1 ∧ (2:ℚ) < (1 - (y1 + y2)) * 100 - 4) →
        ∃ opp, check_complementary_markets m1 m2 = .ok (some opp) ∧
          opp.required_capital = 100 ∧ opp.transaction_costs = 4 ∧
          opp.net_profit = (1 - (y1 + y2)) * 100 - 4 ∧
          opp.profit_potential = opp.net_profit) ∧
      (¬ (y1 + y2 < 1 ∧ (2:ℚ) < (1 - (y1 + y2)) * 100 - 4) →
        (n1 + n2 < 1 ∧ (2:ℚ) < (1 - (n1 + n2)) * 100 - 4) →
        ∃ opp, check_complementary_markets m1 m2 = .ok (some opp) ∧
          opp.required_capital = 100 ∧ opp.transaction_costs = 4 ∧
          opp.net_profit = (1 - (n1 + n2)) * 100 - 4 ∧
          opp.profit_potential = opp.net_profit) ∧
      (¬ (y1 + y2 < 1 ∧ (2:ℚ) < (1 - (y1 + y2)) * 100 - 4) →
        ¬ (n1 + n2 < 1 ∧ (2:ℚ) < (1 - (n1 + n2)) * 100 - 4) →
        check_complementary_markets m1 m2 = .ok none)) ∧
    (∀ (m1 m2 : Market) (y1 y2 : ℚ),
      m1.prices "YES" = some y1 → m2.prices "YES" = some y2 →
      ((y2 < y1 ∧ (2:ℚ) < (y1 - y2) * 100 - 4) →
        ∃ opp, check_nested_markets m1 m2 = .ok (some opp) ∧
          opp.required_capital = 100 ∧ opp.transaction_costs = 4 ∧
          opp.net_profit = (y1 - y2) * 100 - 4 ∧
          opp.profit_potential = opp.net_profit) ∧
      (¬ (y2 < y1 ∧ (2:ℚ) < (y1 - y2) * 100 - 4) →
        check_nested_markets m1 m2 = .ok none)) ∧
    (∀ (m1 m2 : Market) (y1 y2 : ℚ),
      m1.prices "YES" = some y1 → m2.prices "YES" = some y2 →
      ((y2 < y1 ∧ (2:ℚ) < (y1 - y2) * 100 - 4) →
        ∃ opp, check_temporal_markets m1 m2 = .ok (some opp) ∧
          opp.required_capital = 100 ∧ opp.transaction_costs = 4 ∧
          opp.net_profit = (y1 - y2) * 100 - 4 ∧
          opp.profit_potential = opp.net_profit) ∧
      (¬ (y2 < y1 ∧ (2:ℚ) < (y1 - y2) * 100 - 4) →
        check_temporal_markets m1 m2 = .ok none)) := by
  refine ⟨by norm_num [min_profit_threshold], by norm_num [transaction_fee], ?_, ?_, ?_⟩
  · intro m1 m2 y1 n1 y2 n2 h1 h3 h2 h4
    unfold check_complementary_markets
    rw [h1, h2, h3, h4]
    simp only [min_profit_threshold, transaction_fee]
    by_cases hc1 : y1 + y2 < 1
    · rw [if_pos hc1]
      by_cases hc2 : (2:ℚ)/100 * (1 * 100) < (1 - (y1 + y2)) * (1 * 100) - 1 * 100 * (2/100) * 2
      · rw [if_pos hc2]
        exact ⟨fun _ => ⟨_, rfl, by norm_num, by norm_num, by norm_num, rfl⟩,
          fun hneg _ => (hneg ⟨hc1, by linarith⟩).elim,
          fun hneg _ => (hneg ⟨hc1, by linarith⟩).elim⟩
      · rw [if_neg hc2]
        by_cases hc3 : n1 + n2 < 1
        · rw [if_pos hc3]
          by_cases hc4 : (2:ℚ)/100 * (1 * 100) < (1 - (n1 + n2)) * (1 * 100) - 1 * 100 * (2/100) * 2
          · rw [if_pos hc4]
            exact ⟨fun htrig => (hc2 (by linarith [htrig.2])).elim,
              fun _ _ => ⟨_, rfl, by norm_num, by norm_num, by norm_num, rfl⟩,
              fun _ hneg => (hneg ⟨hc3, by linarith⟩).elim⟩
          · rw [if_neg hc4]
            exact ⟨fun htrig => (hc2 (by linarith [htrig.2])).elim,
              fun _ htrig => (hc4 (by linarith [htrig.2])).elim,
              fun _ _ => rfl⟩
        · rw [if_neg hc3]
          exact ⟨fun htrig => (hc2 (by linarith [htrig.2])).elim,
            fun _ htrig => (hc3 htrig.1).elim,
            fun _ _ => rfl⟩
    · rw [if_neg hc1]
      by_cases hc3 : n1 + n2 < 1
      · rw [if_pos hc3]
        by_cases hc4 : (2:ℚ)/100 * (1 * 100) < (1 - (n1 + n2)) * (1 * 100) - 1 * 100 * (2/100) * 2
        · rw [if_pos hc4]
          exact ⟨fun htrig => (hc1 htrig.1).elim,
            fun _ _ => ⟨_, rfl, by norm_num, by norm_num, by norm_num, rfl⟩,
            fun _ hneg => (hneg ⟨hc3, by linarith⟩).elim⟩
        · rw [if_neg hc4]
          exact ⟨fun htrig => (hc1 htrig.1).elim,
            fun _ htrig => (hc4 (by linarith [htrig.2])).elim,
            fun _ _ => rfl⟩
      · rw [if_neg hc3]
        exact ⟨fun htrig => (hc1 htrig.1).elim,
          fun _ htrig => (hc3 htrig.1).elim,
          fun _ _ => rfl⟩
  · intro m1 m2 y1 y2 h1 h2
    unfold check_nested_markets
    rw [h1, h2]
    simp only [min_profit_threshold, transaction_fee]
    by_cases hc1 : y2 < y1
    · rw [if_pos hc1]
      by_cases hc2 : (2:ℚ)/100 * (1 * 100) < (y1 - y2) * (1 * 100) - 1 * 100 * (2/100) * 2
      · rw [if_pos hc2]
        exact ⟨fun _ => ⟨_, rfl, by norm_num, by norm_num, by norm_num, rfl⟩,
          fun hneg => (hneg ⟨hc1, by linarith⟩).elim⟩
      · rw [if_neg hc2]
        exact ⟨fun htrig => (hc2 (by linarith [htrig.2])).elim, fun _ => rfl⟩
    · rw [if_neg hc1]
      exact ⟨fun htrig => (hc1 htrig.1).elim, fun _ => rfl⟩
  · intro m1 m2 y1 y2 h1 h2
    unfold check_temporal_markets
    rw [h1, h2]
    simp only [min_profit_threshold, transaction_fee]
    by_cases hc1 : y2 < y1
    · rw [if_pos hc1]
      by_cases hc2 : (2:ℚ)/100 * (1 * 100) < (y1 - y2) * (1 * 100) - 1 * 100 * (2/100) * 2
      · rw [if_pos hc2]
        exact ⟨fun _ => ⟨_, rfl, by norm_num, by norm_num, by norm_num, rfl⟩,
          fun hneg => (hneg ⟨hc1, by linarith⟩).elim⟩
      · rw [if_neg hc2]
        exact ⟨fun htrig => (hc2 (by linarith [htrig.2])).elim, fun _ => rfl⟩
    · rw [if_neg hc1]
      exact ⟨fun htrig => (hc1 htrig.1).elim, fun _ => rfl⟩

/-- Concrete market with the given `YES` and `NO` prices. -/
def mkMarket (q : String) (y n : ℚ) : Market :=
  { question := q
    prices := fun k => if k = "YES" then some y else if k = "NO" then some n else none }

/-- Witness for claim C5: the nested check at `subset.yes = 0.30`,
`superset.yes = 0.20` emits an opportunity with capital 100, costs 4 and
net profit `0.10 × 100 − 4 = 6`. -/
theorem check_profit_model_witness :
    ∃ opp, check_nested_markets (mkMarket "s" (30/100) (70/100)) (mkMarket "t" (20/100) (80/100)) =
        .ok (some opp) ∧
      opp.required_capital = 100 ∧ opp.transaction_costs = 4 ∧
      opp.net_profit = ((30:ℚ)/100 - 20/100) * 100 - 4 ∧
      opp.profit_potential = opp.net_profit :=
  (check_profit_model.2.2.2.1 (mkMarket "s" (30/100) (70/100)) (mkMarket "t" (20/100) (80/100))
    (30/100) (20/100) rfl rfl).1 ⟨by norm_num, by norm_num⟩

/-- Claim C6: with `market1.yes = 0.40`, `market2.yes = 0.45` (and the
`NO` prices present, as the check reads them first), the complementary
check emits an Opportunity: gross edge `0.15`, transaction costs `4`,
net profit `11 > 0.02 × 100 = 2`. -/
theorem complementary_example_emits_opportunity
    (m1 m2 : Market) (n1 n2 : ℚ)
    (h1 : m1.prices "YES" = some (40/100)) (h3 : m1.prices "NO" = some n1)
    (h2 : m2.prices "YES" = some (45/100)) (h4 : m2.prices "NO" = some n2) :
    (1 : ℚ) - (40/100 + 45/100) = 15/100 ∧
    min_profit_threshold * 100 = 2 ∧ (2:ℚ) < 11 ∧
    ∃ opp, check_complementary_markets m1 m2 = .ok (some opp) ∧
      opp.transaction_costs = 4 ∧ opp.net_profit = 11 ∧ opp.profit_potential = 11 ∧
      opp.required_capital = 100 := by
  refine ⟨by norm_num, by norm_num [min_profit_threshold], by norm_num, ?_⟩
  unfold check_complementary_markets
  rw [h1, h2, h3, h4]
  simp only [min_profit_threshold, transaction_fee]
  rw [if_pos (by norm_num : (40:ℚ)/100 + 45/100 < 1)]
  rw [if_pos (by norm_num :
    (2:ℚ)/100 * (1 * 100) < (1 - (40/100 + 45/100)) * (1 * 100) - 1 * 100 * (2/100) * 2)]
  exact ⟨_, rfl, by norm_num, by norm_num, by norm_num, by norm_num⟩

/-- Witness for claim C6 at concrete markets. -/
theorem complementary_example_emits_opportunity_witness :
    ∃ opp, check_complementary_markets (mkMarket "a" (40/100) (60/100))
        (mkMarket "b" (45/100) (55/100)) = .ok (some opp) ∧
      opp.transaction_costs = 4 ∧ opp.net_profit = 11 ∧ opp.profit_potential = 11 ∧
      opp.required_capital = 100 :=
  (complementary_example_emits_opportunity (mkMarket "a" (40/100) (60/100))
    (mkMarket "b" (45/100) (55/100)) (60/100) (55/100) rfl rfl rfl rfl).2.2.2

/-! ### Ranking theorems -/

theorem insertionSort_filter_stable {α : Type} (r : α → α → Prop) [DecidableRel r]
    (p : α → Bool) (hp : ∀ a b, p a = true → p b = true → r a b) (l : List α) :
    (l.insertionSort r).filter p = l.filter p := by
  have h1 : (l.filter p).Pairwise r :=
    List.pairwise_of_forall_mem_list fun a ha b hb =>
      hp a b (List.of_mem_filter ha) (List.of_mem_filter hb)
  have h3 : List.Sublist (l.filter p) (l.insertionSort r) :=
    List.sublist_insertionSort h1 (List.filter_sublist l)
  have h4 : List.Sublist (l.filter p) ((l.insertionSort r).filter p) := by
    have h' := h3.filter p
    rwa [List.filter_eq_self.mpr (fun a ha => List.of_mem_filter ha)] at h'
  have h5 : ((l.insertionSort r).filter p).length = (l.filter p).length :=
    ((l.perm_insertionSort r).filter p).length_eq
  exact (h4.eq_of_length h5.symm).symm

/-- Opportunity with the given net profit, for the ranking example. -/
def mkTestOpp (p : ℚ) : ArbitrageOpportunity :=
  { markets := [], profit_potential := p, risk_level := "LOW", required_capital := 100,
    action_steps := [], transaction_costs := 4, net_profit := p }

/-- Claim C7: the collected opportunities are returned sorted by
`profit_potential` descending; the sort is stable (for any profit value,
the subsequence of opportunities with that profit is unchanged), the
result is a permutation of the input, `find_arbitrage_opportunities`
returns exactly the ranked collection, and net profits `[5, 20, 11]`
come back ordered `[20, 11, 5]`. -/
theorem rank_sorted_stable :
    (∀ opps : List ArbitrageOpportunity,
      (rank opps).Sorted (fun a b => b.profit_potential ≤ a.profit_potential)) ∧
    (∀ opps : List ArbitrageOpportunity, (rank opps).Perm opps) ∧
    (∀ (opps : List ArbitrageOpportunity) (q : ℚ),
      (rank opps).filter (fun o => decide (o.profit_potential = q)) =
        opps.filter (fun o => decide (o.profit_potential = q))) ∧
    (∀ (markets : List Market) (acc : List ArbitrageOpportunity),
      collectOpportunities markets = .ok acc →
      find_arbitrage_opportunities markets = .ok (rank acc)) ∧
    (rank [mkTestOpp 5, mkTestOpp 20, mkTestOpp 11]).map ArbitrageOpportunity.net_profit =
      [20, 11, 5] := by
  haveI : IsTotal ArbitrageOpportunity (fun a b => b.profit_potential ≤ a.profit_potential) :=
    ⟨fun _ _ => le_total _ _⟩
  haveI : IsTrans ArbitrageOpportunity (fun a b => b.profit_potential ≤ a.profit_potential) :=
    ⟨fun _ _ _ h1 h2 => le_trans h2 h1⟩
  refine ⟨?_, ?_, ?_, ?_, ?_⟩
  · intro opps
    exact List.sorted_insertionSort _ opps
  · intro opps
    exact List.perm_insertionSort _ opps
  · intro opps q
    refine insertionSort_filter_stable _ _ (fun a b ha hb => ?_) opps
    rw [decide_eq_true_eq] at ha hb
    rw [ha, hb]
  · intro markets acc h
    unfold find_arbitrage_opportunities
    rw [h]
    rfl
  · decide

/-- Witness for claim C7: sortedness at the three-element example and the
`find` contract at the empty market list. -/
theorem rank_sorted_stable_witness :
    (rank [mkTestOpp 5, mkTestOpp 20, mkTestOpp 11]).Sorted
        (fun a b => b.profit_potential ≤ a.profit_potential) ∧
    find_arbitrage_opportunities [] = .ok (rank []) :=
  ⟨rank_sorted_stable.1 _, rank_sorted_stable.2.2.2.1 [] [] rfl⟩

/-! ### Pricer lemmas (proof infrastructure) -/

/-- Proof-side refactoring of `processOutcomes`: collect the per-outcome
estimates first (`none` as soon as any outcome raises), then build the
dict and the probability sum. -/
def estimatePairs (book : OrderBook) : List Outcome →
    Option (List (String × OutcomePriceEstimate))
  | [] => some []
  | o :: os =>
    match outcomeEstimate book o, estimatePairs book os with
    | some e, some rest => some ((o.name, e) :: rest)
    | _, _ => none

theorem foldl_processStep_none (book : OrderBook) :
    ∀ outcomes : List Outcome, outcomes.foldl (processStep book) none = none
  | [] => rfl
  | _ :: os => by
    rw [List.foldl_cons]
    exact foldl_processStep_none book os

theorem foldl_processStep_go (book : OrderBook) :
    ∀ (outcomes : List Outcome) (p0 : List (String × OutcomePriceEstimate)) (t0 : ℚ),
      outcomes.foldl (processStep book) (some (p0, t0)) =
      (estimatePairs book outcomes).map
        (fun pairs => (pairs.foldl (fun acc q => dictInsert q.1 q.2 acc) p0,
                       t0 + (pairs.map (fun q => q.2.probability)).sum))
  | [], p0, t0 => by simp [estimatePairs]
  | o :: os, p0, t0 => by
    rw [List.foldl_cons]
    cases he : outcomeEstimate book o with
    | none =>
      rw [show processStep book (some (p0, t0)) o = none by simp [processStep, he],
        foldl_processStep_none book os]
      simp [estimatePairs, he]
    | some e =>
      rw [show processStep book (some (p0, t0)) o =
            some (dictInsert o.name e p0, t0 + e.probability) by simp [processStep, he],
        foldl_processStep_go book os (dictInsert o.name e p0) (t0 + e.probability)]
      rw [show estimatePairs book (o :: os) =
            (estimatePairs book os).map (fun rest => (o.name, e) :: rest) by
          cases hr : estimatePairs book os <;> simp [estimatePairs, he, hr]]
      cases estimatePairs book os <;> simp [add_assoc]

theorem processOutcomes_eq (book : OrderBook) (outcomes : List Outcome) :
    processOutcomes book outcomes =
      (estimatePairs book outcomes).map
        (fun pairs => (pairs.foldl (fun acc q => dictInsert q.1 q.2 acc) [],
                       (pairs.map (fun q => q.2.probability)).sum)) := by
  rw [processOutcomes, foldl_processStep_go book outcomes [] 0]
  cases estimatePairs book outcomes <;> simp

theorem estimatePairs_keys (book : OrderBook) :
    ∀ (outcomes : List Outcome) (pairs : List (String × OutcomePriceEstimate)),
      estimatePairs book outcomes = some pairs →
      pairs.map Prod.fst = outcomes.map Outcome.name
  | [], pairs => by
    intro h
    simp only [estimatePairs] at h
    simp [← Option.some_inj.mp h]
  | o :: os, pairs => by
    intro h
    simp only [estimatePairs] at h
    cases he : outcomeEstimate book o with
    | none => rw [he] at h; exact Option.noConfusion h
    | some e =>
      rw [he] at h
      cases hr : estimatePairs book os with
      | none => rw [hr] at h; exact Option.noConfusion h
      | some rest =>
        rw [hr] at h
        rw [← Option.some_inj.mp h]
        simp [estimatePairs_keys book os rest hr]

theorem estimatePairs_mem (book : OrderBook) :
    ∀ (outcomes : List Outcome) (pairs : List (String × OutcomePriceEstimate)),
      estimatePairs book outcomes = some pairs →
      ∀ q ∈ pairs, ∃ o ∈ outcomes, q.1 = o.name ∧ outcomeEstimate book o = some q.2
  | [], pairs => by
    intro h q hq
    simp only [estimatePairs] at h
    rw [← Option.some_inj.mp h] at hq
    exact absurd hq (List.not_mem_nil q)
  | o :: os, pairs => by
    intro h q hq
    simp only [estimatePairs] at h
    cases he : outcomeEstimate book o with
    | none => rw [he] at h; exact Option.noConfusion h
    | some e =>
      rw [he] at h
      cases hr : estimatePairs book os with
      | none => rw [hr] at h; exact Option.noConfusion h
      | some rest =>
        rw [hr] at h
        rw [← Option.some_inj.mp h] at hq
        rcases List.mem_cons.mp hq with hq' | hq'
        · exact ⟨o, List.mem_cons_self _ _, by rw [hq'], by rw [hq']; exact he⟩
        · rcases estimatePairs_mem book os rest hr q hq' with ⟨o', ho', h1, h2⟩
          exact ⟨o', List.mem_cons_of_mem _ ho', h1, h2⟩

theorem foldl_dictInsert_of_nodup {α : Type} :
    ∀ (pairs acc : List (String × α)),
      (pairs.map Prod.fst).Nodup →
      (∀ q ∈ pairs, dictLookup q.1 acc = none) →
      pairs.foldl (fun acc q => dictInsert q.1 q.2 acc) acc = acc ++ pairs
  | [], acc, _, _ => by simp
  | q :: ps, acc, hnd, hfresh => by
    rw [List.foldl_cons,
      dictInsert_of_lookup_none q.1 q.2 acc (hfresh q (List.mem_cons_self _ _)),
      foldl_dictInsert_of_nodup ps (acc ++ [(q.1, q.2)]) (by simpa using hnd.of_cons) ?_]
    · simp
    · intro q' hq'
      rw [dictLookup_append]
      rw [hfresh q' (List.mem_cons_of_mem _ hq')]
      have hne : ¬ q'.1 = q.1 := by
        intro hh
        have : q.1 ∈ ps.map Prod.fst := List.mem_map.mpr ⟨q', hq', hh⟩
        simp only [List.map_cons, List.nodup_cons] at hnd
        exact hnd.1 this
      simp [dictLookup, hne]

/-! ### Pricer theorems -/

/-- Claim C2 (amended): for every binary market whose order-book fetch and
top-of-book read succeed (including when individual price strings fail to
parse, which gives price `0`), `Yes.probability + No.probability = 1`
exactly and `market_efficiency = 0`; the claim's extension to a market
whose fetch fails is refuted by `binary_fallback_violates_sum_one` — the
fallback gives both probabilities `0` and efficiency `1`. -/
theorem binary_prices_complement_sum_one (book : OrderBook)
    (hb : (book.entries "bids").getD [⟨none⟩] ≠ [])
    (ha : (book.entries "asks").getD [⟨none⟩] ≠ []) :
    probOf (get_binary_market_prices (some book)) "Yes" +
      probOf (get_binary_market_prices (some book)) "No" = 1 ∧
    (get_binary_market_prices (some book)).market_efficiency = 0 := by
  show probOf (binaryBody book) "Yes" + probOf (binaryBody book) "No" = 1 ∧
    (binaryBody book).market_efficiency = 0
  unfold binaryBody
  cases hbb : (book.entries "bids").getD [⟨none⟩] with
  | nil => exact absurd hbb hb
  | cons b bs =>
    cases haa : (book.entries "asks").getD [⟨none⟩] with
    | nil => exact absurd haa ha
    | cons a as =>
      refine ⟨?_, rfl⟩
      simp only [probOf]
      norm_num [dictLookup]
      rw [if_neg (by decide : ¬ ("No" : String) = "Yes")]
      norm_num
      try ring

/-- Order book with no entries at all (models a failed JSON payload
shape; for the binary path every key read falls back to its default). -/
def emptyBook : OrderBook := ⟨fun _ => none⟩

/-- Witness for claim C2 at a book with both side keys absent: the
defaults `'0'`/`'1'` give `Yes.probability = 1/2`, `No.probability = 1/2`. -/
theorem binary_prices_complement_sum_one_witness :
    probOf (get_binary_market_prices (some emptyBook)) "Yes" +
      probOf (get_binary_market_prices (some emptyBook)) "No" = 1 ∧
    (get_binary_market_prices (some emptyBook)).market_efficiency = 0 :=
  binary_prices_complement_sum_one emptyBook (by simp [emptyBook]) (by simp [emptyBook])

/-- Claim C2 (counterexample): when the binary fetch fails, the fallback
estimate has `Yes.probability = No.probability = 0` (sum `0`, not `1`)
and `market_efficiency = 1`, refuting the claim for that case. -/
theorem binary_fallback_violates_sum_one :
    ¬ (probOf (get_binary_market_prices none) "Yes" +
         probOf (get_binary_market_prices none) "No" = 1 ∧
       (get_binary_market_prices none).market_efficiency = 0) := by
  intro h
  have h1 := h.1
  norm_num [get_binary_market_prices, binaryFallback, probOf, dictLookup,
    defaultEstimate] at h1

/-- Claim C8: a market whose order-book fetch fails still yields a
complete estimate map — an entry for every outcome name on the
multi-outcome path, exactly the `Yes`/`No` entries on the binary path —
every entry equal to the conservative defaults `probability = 0`,
`best_bid = 0`, `best_ask = 1`, `bid_ask_spread = 1` (and
`normalized_probability = 0`), with `market_efficiency = 1`; no exception
reaches the caller (the embedded functions are total). -/
theorem fallback_complete_default_estimates :
    (∀ (outcomes : List Outcome), ∀ o ∈ outcomes,
      dictLookup o.name (get_multi_outcome_prices none outcomes).outcome_prices =
        some defaultEstimate) ∧
    (∀ outcomes : List Outcome,
      (get_multi_outcome_prices none outcomes).market_efficiency = 1) ∧
    (get_binary_market_prices none).outcome_prices =
      [("Yes", defaultEstimate), ("No", defaultEstimate)] ∧
    (get_binary_market_prices none).market_efficiency = 1 ∧
    defaultEstimate =
      { probability := 0, normalized_probability := some 0,
        best_bid := 0, best_ask := 1, bid_ask_spread := 1 } := by
  refine ⟨?_, fun _ => rfl, rfl, rfl, rfl⟩
  intro outcomes o ho
  show dictLookup o.name (multiFallback outcomes).outcome_prices = some defaultEstimate
  unfold multiFallback
  rw [foldl_dictInsert_const_lookup Outcome.name defaultEstimate o.name outcomes []]
  rw [if_pos ⟨o, ho, rfl⟩]

/-- Witness for claim C8 at a one-outcome market. -/
theorem fallback_complete_default_estimates_witness :
    dictLookup "A" (get_multi_outcome_prices none [⟨"o1", "A"⟩]).outcome_prices =
      some defaultEstimate :=
  fallback_complete_default_estimates.1 [⟨"o1", "A"⟩] ⟨"o1", "A"⟩ (by simp)

theorem outcomeEstimate_fields (book : OrderBook) (o : Outcome) (e : OutcomePriceEstimate)
    (h : outcomeEstimate book o = some e) :
    e.bid_ask_spread = e.best_ask - e.best_bid ∧ e.normalized_probability = none ∧
    e.probability = (e.best_bid + e.best_ask) / 2 := by
  unfold outcomeEstimate at h
  cases hbb : (book.entries ("bids_" ++ o.id)).getD [⟨some "0"⟩] with
  | nil => rw [hbb] at h; exact Option.noConfusion h
  | cons b bs =>
    cases haa : (book.entries ("asks_" ++ o.id)).getD [⟨some "1"⟩] with
    | nil => rw [hbb, haa] at h; exact Option.noConfusion h
    | cons a as =>
      rw [hbb, haa] at h
      have h2 : (match b.price, a.price with
          | some bp, some ap =>
            let best_bid := get_probability_from_price bp
            let best_ask := get_probability_from_price ap
            (some { probability := (best_bid + best_ask) / 2
                    normalized_probability := none
                    best_bid := best_bid
                    best_ask := best_ask
                    bid_ask_spread := best_ask - best_bid } : Option OutcomePriceEstimate)
          | _, _ => none) = some e := h
      clear h
      cases hbp : b.price with
      | none => rw [hbp] at h2; exact Option.noConfusion h2
      | some bp =>
        cases hap : a.price with
        | none => rw [hbp, hap] at h2; exact Option.noConfusion h2
        | some ap =>
          rw [hbp, hap] at h2
          rw [← Option.some_inj.mp h2]
          exact ⟨rfl, rfl, rfl⟩

theorem mem_pricesDict_fields (book : OrderBook) (outcomes : List Outcome)
    (pairs : List (String × OutcomePriceEstimate))
    (hp : estimatePairs book outcomes = some pairs) :
    ∀ kv ∈ pairs.foldl (fun acc q => dictInsert q.1 q.2 acc) [],
      kv.2.bid_ask_spread = kv.2.best_ask - kv.2.best_bid ∧
      kv.2.normalized_probability = none ∧
      kv.2.probability = (kv.2.best_bid + kv.2.best_ask) / 2 := by
  intro kv hkv
  rcases foldl_dictInsert_mem Prod.fst Prod.snd pairs [] kv hkv with ⟨q, hq, hkvq⟩ | hkv'
  · rcases estimatePairs_mem book outcomes pairs hp q hq with ⟨o, _, _, hoe⟩
    have := outcomeEstimate_fields book o q.2 hoe
    rw [hkvq]
    exact this
  · exact absurd hkv' (List.not_mem_nil kv)

theorem mem_multiFallback_default (outcomes : List Outcome) :
    ∀ kv ∈ (multiFallback outcomes).outcome_prices, kv.2 = defaultEstimate := by
  intro kv hkv
  rcases foldl_dictInsert_mem Outcome.name (fun _ => defaultEstimate) outcomes [] kv hkv with
    ⟨o, _, hkvq⟩ | hkv'
  · rw [hkvq]
  · exact absurd hkv' (List.not_mem_nil kv)

/-- Claim C3 (amended): every estimate entry ever produced satisfies
`bid_ask_spread = best_ask − best_bid` (for the conservative fallbacks
`1 = 1 − 0`), hence the spread is nonnegative whenever the recorded
`best_bid ≤ best_ask` — in particular for missing or empty book sides,
where the defaults `0`/`1` apply. The claim's extension to crossed books
(best bid above best ask) is refuted by `crossed_book_negative_spread`:
no clamping is performed, so the spread goes negative there. -/
theorem spread_eq_ask_sub_bid (fetch : Option OrderBook) (outcomes : List Outcome)
    (k : String) (e : OutcomePriceEstimate)
    (h : dictLookup k (get_market_prices fetch outcomes).outcome_prices = some e) :
    e.bid_ask_spread = e.best_ask - e.best_bid ∧
    (e.best_bid ≤ e.best_ask → 0 ≤ e.bid_ask_spread) := by
  have hmem := dictLookup_mem k _ e h
  have key : e.bid_ask_spread = e.best_ask - e.best_bid := by
    clear h
    unfold get_market_prices at hmem
    by_cases hbm : isBinaryMarket outcomes
    · rw [if_pos hbm] at hmem
      cases fetch with
      | none =>
        simp only [get_binary_market_prices, binaryFallback, List.mem_cons,
          List.not_mem_nil, or_false, Prod.mk.injEq] at hmem
        rcases hmem with ⟨-, rfl⟩ | ⟨-, rfl⟩ <;> norm_num [defaultEstimate]
      | some book =>
        have hm : (k, e) ∈ (binaryBody book).outcome_prices := hmem
        clear hmem
        unfold binaryBody at hm
        cases hbb : (book.entries "bids").getD [⟨none⟩] with
        | nil =>
          rw [hbb] at hm
          simp only [binaryFallback, List.mem_cons, List.not_mem_nil, or_false,
            Prod.mk.injEq] at hm
          rcases hm with ⟨-, rfl⟩ | ⟨-, rfl⟩ <;> norm_num [defaultEstimate]
        | cons b bs =>
          cases haa : (book.entries "asks").getD [⟨none⟩] with
          | nil =>
            rw [hbb, haa] at hm
            simp only [binaryFallback, List.mem_cons, List.not_mem_nil, or_false,
              Prod.mk.injEq] at hm
            rcases hm with ⟨-, rfl⟩ | ⟨-, rfl⟩ <;> norm_num [defaultEstimate]
          | cons a as =>
            rw [hbb, haa] at hm
            simp only [List.mem_cons, List.not_mem_nil, or_false, Prod.mk.injEq] at hm
            rcases hm with ⟨-, rfl⟩ | ⟨-, rfl⟩
            · rfl
            · show _ = (1 - _) - (1 - _)
              ring
    · rw [if_neg hbm] at hmem
      cases fetch with
      | none =>
        have := mem_multiFallback_default outcomes (k, e) hmem
        rw [show e = defaultEstimate from this]
        norm_num [defaultEstimate]
      | some book =>
        have hb : (k, e) ∈ (multiBody book outcomes).outcome_prices := hmem
        clear hmem
        unfold multiBody at hb
        rw [processOutcomes_eq book outcomes] at hb
        cases hp : estimatePairs book outcomes with
        | none =>
          rw [hp] at hb
          have := mem_multiFallback_default outcomes (k, e) hb
          rw [show e = defaultEstimate from this]
          norm_num [defaultEstimate]
        | some pairs =>
          rw [hp] at hb
          simp only [Option.map_some'] at hb
          by_cases hemp : outcomes.isEmpty
          · rw [if_pos hemp] at hb
            have := mem_multiFallback_default outcomes (k, e) hb
            rw [show e = defaultEstimate from this]
            norm_num [defaultEstimate]
          · rw [if_neg hemp] at hb
            by_cases hpos : (0:ℚ) < (pairs.map (fun q => q.2.probability)).sum
            · rw [if_pos hpos] at hb
              rcases List.mem_map.mp hb with ⟨kv0, hkv0, hkv0e⟩
              have hf := mem_pricesDict_fields book outcomes pairs hp kv0 hkv0
              cases hkv0e
              exact hf.1
            · rw [if_neg hpos] at hb
              have hf := mem_pricesDict_fields book outcomes pairs hp (k, e) hb
              exact hf.1
  refine ⟨key, fun hle => ?_⟩
  rw [key]
  exact sub_nonneg.mpr hle

/-- Order book whose single outcome `o1` has best bid `0.9` above best
ask `0.5` (a crossed book). -/
def crossedBook : OrderBook :=
  ⟨fun k => if k = "bids_o1" then some [⟨some "0.9"⟩]
    else if k = "asks_o1" then some [⟨some "0.5"⟩] else none⟩

/-- Claim C3 (counterexample): on a crossed book the computed
`bid_ask_spread = best_ask − best_bid = 0.5 − 0.9 = −0.4 < 0`; the code
performs no clamping, refuting the claim for crossed books. -/
theorem crossed_book_negative_spread :
    spreadOf (get_market_prices (some crossedBook) [⟨"o1", "A"⟩]) "A" = -(2/5) ∧
    ¬ (0 ≤ spreadOf (get_market_prices (some crossedBook) [⟨"o1", "A"⟩]) "A") := by
  have hbid : get_probability_from_price "0.9" = 9/10 := by
    simp [get_probability_from_price, parseDecimal, digitsToNat]
    try norm_num
  have hask : get_probability_from_price "0.5" = 1/2 := by
    simp [get_probability_from_price, parseDecimal, digitsToNat]
    try norm_num
  have hoe : outcomeEstimate crossedBook ⟨"o1", "A"⟩ =
      some { probability := (9/10 + 1/2) / 2, normalized_probability := none,
             best_bid := 9/10, best_ask := 1/2, bid_ask_spread := 1/2 - 9/10 } := by
    unfold outcomeEstimate
    rw [show crossedBook.entries ("bids_" ++ (⟨"o1", "A"⟩ : Outcome).id) =
          some [⟨some "0.9"⟩] from rfl,
        show crossedBook.entries ("asks_" ++ (⟨"o1", "A"⟩ : Outcome).id) =
          some [⟨some "0.5"⟩] from rfl]
    norm_num [hbid, hask]
  have hep : estimatePairs crossedBook [⟨"o1", "A"⟩] =
      some [("A", { probability := (9/10 + 1/2) / 2, normalized_probability := none,
                    best_bid := 9/10, best_ask := 1/2, bid_ask_spread := 1/2 - 9/10 })] := by
    simp [estimatePairs, hoe]
  have hkey : get_market_prices (some crossedBook) [⟨"o1", "A"⟩] =
      multiBody crossedBook [⟨"o1", "A"⟩] := rfl
  rw [hkey]
  unfold multiBody
  rw [processOutcomes_eq, hep]
  simp only [Option.map_some', List.map_cons, List.map_nil, List.sum_cons, List.sum_nil,
    add_zero, List.isEmpty_cons, Bool.false_eq_true, if_false]
  rw [if_pos (by norm_num : (0:ℚ) < (9/10 + 1/2) / 2)]
  constructor
  · norm_num [spreadOf, dictLookup, List.foldl, dictInsert, normalizeEstimate]
  · norm_num [spreadOf, dictLookup, List.foldl, dictInsert, normalizeEstimate]

/-- Witness for claim C3 at the failed-fetch fallback entry. -/
theorem spread_eq_ask_sub_bid_witness :
    defaultEstimate.bid_ask_spread = defaultEstimate.best_ask - defaultEstimate.best_bid ∧
    (defaultEstimate.best_bid ≤ defaultEstimate.best_ask →
      0 ≤ defaultEstimate.bid_ask_spread) :=
  spread_eq_ask_sub_bid none [⟨"o1", "A"⟩] "A" defaultEstimate rfl

/-- Claim C9: a market with exactly two outcomes, at least one of whose
names lowercases to `yes` or `no`, takes the binary path, whose
outcome-price map keys are exactly `Yes`, `No` regardless of the
source-supplied casing; every other market takes the multi-outcome path,
whose map is keyed by exactly the outcome names. -/
theorem outcome_price_map_keys :
    (∀ (fetch : Option OrderBook) (outcomes : List Outcome),
      isBinaryMarket outcomes = true →
      (get_market_prices fetch outcomes).outcome_prices.map Prod.fst = ["Yes", "No"]) ∧
    (∀ (fetch : Option OrderBook) (outcomes : List Outcome),
      isBinaryMarket outcomes = false →
      ∀ k : String,
        (dictLookup k (get_market_prices fetch outcomes).outcome_prices).isSome = true ↔
          ∃ o ∈ outcomes, o.name = k) := by
  constructor
  · intro fetch outcomes hbm
    unfold get_market_prices
    rw [if_pos hbm]
    cases fetch with
    | none => rfl
    | some book =>
      show ((binaryBody book).outcome_prices).map Prod.fst = _
      unfold binaryBody
      cases hbb : (book.entries "bids").getD [⟨none⟩] with
      | nil => rfl
      | cons b bs =>
        cases haa : (book.entries "asks").getD [⟨none⟩] with
        | nil => rfl
        | cons a as => rfl
  · intro fetch outcomes hbm k
    unfold get_market_prices
    rw [if_neg (by simp [hbm])]
    cases fetch with
    | none =>
      show (dictLookup k (multiFallback outcomes).outcome_prices).isSome = true ↔ _
      unfold multiFallback
      rw [foldl_dictInsert_const_lookup Outcome.name defaultEstimate k outcomes []]
      by_cases hex : ∃ o ∈ outcomes, o.name = k
      · simp [hex]
      · simp [hex, dictLookup]
    | some book =>
      show (dictLookup k (multiBody book outcomes).outcome_prices).isSome = true ↔ _
      unfold multiBody
      rw [processOutcomes_eq]
      cases hp : estimatePairs book outcomes with
      | none =>
        show (dictLookup k (multiFallback outcomes).outcome_prices).isSome = true ↔ _
        unfold multiFallback
        rw [foldl_dictInsert_const_lookup Outcome.name defaultEstimate k outcomes []]
        by_cases hex : ∃ o ∈ outcomes, o.name = k
        · simp [hex]
        · simp [hex, dictLookup]
      | some pairs =>
        simp only [Option.map_some']
        have hkeys : pairs.map Prod.fst = outcomes.map Outcome.name :=
          estimatePairs_keys book outcomes pairs hp
        have hpairs : (∃ q ∈ pairs, q.1 = k) ↔ ∃ o ∈ outcomes, o.name = k := by
          constructor
          · rintro ⟨q, hq, rfl⟩
            have : q.1 ∈ outcomes.map Outcome.name := by
              rw [← hkeys]
              exact List.mem_map_of_mem _ hq
            rcases List.mem_map.mp this with ⟨o, ho, hoe⟩
            exact ⟨o, ho, hoe⟩
          · rintro ⟨o, ho, rfl⟩
            have : o.name ∈ pairs.map Prod.fst := by
              rw [hkeys]
              exact List.mem_map_of_mem _ ho
            rcases List.mem_map.mp this with ⟨q, hq, hqe⟩
            exact ⟨q, hq, hqe⟩
        by_cases hemp : outcomes.isEmpty
        · rw [if_pos hemp]
          show (dictLookup k (multiFallback outcomes).outcome_prices).isSome = true ↔ _
          unfold multiFallback
          rw [foldl_dictInsert_const_lookup Outcome.name defaultEstimate k outcomes []]
          by_cases hex : ∃ o ∈ outcomes, o.name = k
          · simp [hex]
          · simp [hex, dictLookup]
        · rw [if_neg hemp]
          by_cases hpos : (0:ℚ) < (pairs.map (fun q => q.2.probability)).sum
          · rw [if_pos hpos]
            show (dictLookup k ((pairs.foldl (fun acc q => dictInsert q.1 q.2 acc) []).map (fun ke => (ke.1, normalizeEstimate ((pairs.map (fun q : String × OutcomePriceEstimate => q.2.probability)).sum) ke.2)))).isSome = true ↔ _
            rw [dictLookup_mapVals]
            rw [show ∀ w : Option OutcomePriceEstimate,
                (w.map (normalizeEstimate ((pairs.map (fun q : String × OutcomePriceEstimate => q.2.probability)).sum))).isSome = w.isSome from fun w => by cases w <;> rfl]
            rw [foldl_dictInsert_lookup_isSome Prod.fst Prod.snd k pairs []]
            simp [dictLookup, hpairs]
          · rw [if_neg hpos]
            show (dictLookup k (pairs.foldl (fun acc q => dictInsert q.1 q.2 acc) [])).isSome
                = true ↔ _
            rw [foldl_dictInsert_lookup_isSome Prod.fst Prod.snd k pairs []]
            simp [dictLookup, hpairs]

/-- Witness for claim C9: a two-outcome market named `YES`/`NO` in caps is
keyed `Yes`/`No`; a one-outcome market is keyed by its outcome name. -/
theorem outcome_price_map_keys_witness :
    (get_market_prices none [⟨"1", "YES"⟩, ⟨"2", "Other"⟩]).outcome_prices.map Prod.fst =
      ["Yes", "No"] ∧
    ((dictLookup "A" (get_market_prices none [⟨"o1", "A"⟩]).outcome_prices).isSome = true ↔
      ∃ o ∈ [(⟨"o1", "A"⟩ : Outcome)], o.name = "A") :=
  ⟨outcome_price_map_keys.1 none [⟨"1", "YES"⟩, ⟨"2", "Other"⟩] (by decide),
   outcome_price_map_keys.2 none [⟨"o1", "A"⟩] (by decide) "A"⟩

/-- Claim C4: on the multi-outcome path (outcome names distinct, per the
data model), when `total_implied_probability` is positive every entry is
assigned `normalized_probability = probability / total` and the
normalized probabilities sum to exactly 1; when the total is zero or
negative no division is performed — the key is left absent (`none`) in
the computed branch, or `0` in the failure fallback. -/
theorem normalized_probabilities_sum_one (fetch : Option OrderBook) (outcomes : List Outcome)
    (hnd : (outcomes.map Outcome.name).Nodup) :
    (0 < (get_multi_outcome_prices fetch outcomes).total_implied_probability →
      (∀ kv ∈ (get_multi_outcome_prices fetch outcomes).outcome_prices,
        kv.2.normalized_probability = some (kv.2.probability /
          (get_multi_outcome_prices fetch outcomes).total_implied_probability)) ∧
      ((get_multi_outcome_prices fetch outcomes).outcome_prices.map
        (fun kv => (kv.2.normalized_probability).getD 0)).sum = 1) ∧
    ((get_multi_outcome_prices fetch outcomes).total_implied_probability ≤ 0 →
      ∀ kv ∈ (get_multi_outcome_prices fetch outcomes).outcome_prices,
        kv.2.normalized_probability = none ∨ kv.2.normalized_probability = some 0) := by
  have fallbackCase : ∀ heq : get_multi_outcome_prices fetch outcomes = multiFallback outcomes,
      (0 < (get_multi_outcome_prices fetch outcomes).total_implied_probability →
        (∀ kv ∈ (get_multi_outcome_prices fetch outcomes).outcome_prices,
          kv.2.normalized_probability = some (kv.2.probability /
            (get_multi_outcome_prices fetch outcomes).total_implied_probability)) ∧
        ((get_multi_outcome_prices fetch outcomes).outcome_prices.map
          (fun kv => (kv.2.normalized_probability).getD 0)).sum = 1) ∧
      ((get_multi_outcome_prices fetch outcomes).total_implied_probability ≤ 0 →
        ∀ kv ∈ (get_multi_outcome_prices fetch outcomes).outcome_prices,
          kv.2.normalized_probability = none ∨ kv.2.normalized_probability = some 0) := by
    intro heq
    rw [heq]
    constructor
    · intro h
      exact absurd h (by norm_num [multiFallback])
    · intro _ kv hkv
      have := mem_multiFallback_default outcomes kv hkv
      rw [this]
      exact Or.inr rfl
  cases fetch with
  | none => exact fallbackCase rfl
  | some book =>
    cases hp : estimatePairs book outcomes with
    | none =>
      refine fallbackCase ?_
      show multiBody book outcomes = _
      unfold multiBody
      rw [processOutcomes_eq, hp]
      rfl
    | some pairs =>
      by_cases hemp : outcomes.isEmpty
      · refine fallbackCase ?_
        show multiBody book outcomes = _
        unfold multiBody
        rw [processOutcomes_eq, hp]
        simp only [Option.map_some']
        rw [if_pos hemp]
      · have hkeys : pairs.map Prod.fst = outcomes.map Outcome.name :=
          estimatePairs_keys book outcomes pairs hp
        have hfold : pairs.foldl (fun acc q => dictInsert q.1 q.2 acc) [] = pairs := by
          have := foldl_dictInsert_of_nodup pairs []
            (by rw [hkeys]; exact hnd) (fun q _ => rfl)
          simpa using this
        by_cases hpos : (0:ℚ) < (pairs.map (fun q => q.2.probability)).sum
        · have hPD : get_multi_outcome_prices (some book) outcomes =
              { outcome_prices := pairs.map (fun ke =>
                  (ke.1, normalizeEstimate
                    ((pairs.map (fun q : String × OutcomePriceEstimate => q.2.probability)).sum)
                    ke.2))
                total_implied_probability :=
                  (pairs.map (fun q : String × OutcomePriceEstimate => q.2.probability)).sum
                market_efficiency :=
                  |1 - (pairs.map (fun q : String × OutcomePriceEstimate => q.2.probability)).sum|
                average_spread := ((pairs.map (fun ke =>
                    (ke.1, normalizeEstimate
                      ((pairs.map (fun q : String × OutcomePriceEstimate => q.2.probability)).sum)
                      ke.2))).map (fun ke => ke.2.bid_ask_spread)).sum /
                  (outcomes.length : ℚ) } := by
            show multiBody book outcomes = _
            unfold multiBody
            rw [processOutcomes_eq, hp]
            simp only [Option.map_some']
            rw [if_neg hemp, if_pos hpos, hfold]
          rw [hPD]
          constructor
          · intro _
            constructor
            · intro kv hkv
              rcases List.mem_map.mp hkv with ⟨kv0, hkv0, hkv0e⟩
              cases hkv0e
              rfl
            · rw [List.map_map]
              have hcomp : ((fun kv : String × OutcomePriceEstimate =>
                    kv.2.normalized_probability.getD 0) ∘
                  (fun ke : String × OutcomePriceEstimate =>
                    (ke.1, normalizeEstimate ((pairs.map
                      (fun q : String × OutcomePriceEstimate => q.2.probability)).sum) ke.2))) =
                  fun ke : String × OutcomePriceEstimate =>
                    ke.2.probability / (pairs.map
                      (fun q : String × OutcomePriceEstimate => q.2.probability)).sum := by
                funext ke
                simp [normalizeEstimate]
              rw [hcomp]
              simp only [div_eq_mul_inv]
              rw [List.sum_map_mul_right]
              exact mul_inv_cancel₀ (ne_of_gt hpos)
          · intro hle
            exact absurd hpos (not_lt.mpr hle)
        · have hPD : get_multi_outcome_prices (some book) outcomes =
              { outcome_prices := pairs.foldl (fun acc q => dictInsert q.1 q.2 acc) []
                total_implied_probability :=
                  (pairs.map (fun q : String × OutcomePriceEstimate => q.2.probability)).sum
                market_efficiency :=
                  |1 - (pairs.map (fun q : String × OutcomePriceEstimate => q.2.probability)).sum|
                average_spread := (((pairs.foldl (fun acc q => dictInsert q.1 q.2 acc) []).map
                    (fun ke => ke.2.bid_ask_spread)).sum) / (outcomes.length : ℚ) } := by
            show multiBody book outcomes = _
            unfold multiBody
            rw [processOutcomes_eq, hp]
            simp only [Option.map_some']
            rw [if_neg hemp, if_neg hpos]
          rw [hPD]
          constructor
          · intro h
            exact absurd h hpos
          · intro _ kv hkv
            exact Or.inl (mem_pricesDict_fields book outcomes pairs hp kv hkv).2.1

/-- One-outcome book with bid `0.4` and ask `0.6` (mid `0.5`). -/
def sampleBook : OrderBook :=
  ⟨fun k => if k = "bids_o1" then some [⟨some "0.4"⟩]
    else if k = "asks_o1" then some [⟨some "0.6"⟩] else none⟩

/-- Witness for claim C4: a market with one outcome priced at mid `0.5`
has positive total and its normalized probabilities sum to 1. -/
theorem normalized_probabilities_sum_one_witness :
    0 < (get_multi_outcome_prices (some sampleBook) [⟨"o1", "A"⟩]).total_implied_probability ∧
    ((get_multi_outcome_prices (some sampleBook) [⟨"o1", "A"⟩]).outcome_prices.map
      (fun kv => (kv.2.normalized_probability).getD 0)).sum = 1 := by
  have hbid : get_probability_from_price "0.4" = 4/10 := by
    simp [get_probability_from_price, parseDecimal, digitsToNat]
    try norm_num
  have hask : get_probability_from_price "0.6" = 6/10 := by
    simp [get_probability_from_price, parseDecimal, digitsToNat]
    try norm_num
  have hoe : outcomeEstimate sampleBook ⟨"o1", "A"⟩ =
      some { probability := (4/10 + 6/10) / 2, normalized_probability := none,
             best_bid := 4/10, best_ask := 6/10, bid_ask_spread := 6/10 - 4/10 } := by
    unfold outcomeEstimate
    rw [show sampleBook.entries ("bids_" ++ (⟨"o1", "A"⟩ : Outcome).id) =
          some [⟨some "0.4"⟩] from rfl,
        show sampleBook.entries ("asks_" ++ (⟨"o1", "A"⟩ : Outcome).id) =
          some [⟨some "0.6"⟩] from rfl]
    norm_num [hbid, hask]
  have hep : estimatePairs sampleBook [⟨"o1", "A"⟩] =
      some [("A", { probability := (4/10 + 6/10) / 2, normalized_probability := none,
                    best_bid := 4/10, best_ask := 6/10, bid_ask_spread := 6/10 - 4/10 })] := by
    simp [estimatePairs, hoe]
  have htot : (get_multi_outcome_prices (some sampleBook) [⟨"o1", "A"⟩]).total_implied_probability
      = 1/2 := by
    show (multiBody sampleBook [⟨"o1", "A"⟩]).total_implied_probability = 1/2
    unfold multiBody
    rw [processOutcomes_eq, hep]
    simp only [Option.map_some', List.map_cons, List.map_nil, List.sum_cons, List.sum_nil,
      add_zero, List.isEmpty_cons, Bool.false_eq_true, if_false]
    norm_num
  refine ⟨by rw [htot]; norm_num, ?_⟩
  exact ((normalized_probabilities_sum_one (some sampleBook) [⟨"o1", "A"⟩] (by decide)).1
    (by rw [htot]; norm_num)).2
